/-
Verification development for the elv structural editor / live interpreter.

The definitions below are a shallow embedding of the Rust sources:
  src/syntax.rs   (Expr, Program)
  src/editor.rs   (Cursor, CursorShape, Mode, navigation)
  src/value.rs    (Value, Val, Shape, accessors)
  src/polyset.rs  (Polyset)
  src/eval.rs     (VM, Trace, eval_prim, eval_cursor)

Modelling conventions:
  * Rust i64 / BigInt values are modelled as Lean Int.  Arithmetic in
    eval.rs goes through BigInt (Value::as_num returns BigInt), so +, *, /
    are unbounded; Value::new_num stores the result inline when it fits in
    i64 and behind a pointer otherwise, exactly as in value.rs.
  * Rust usize casts (`as usize`) wrap modulo 2^64 and usize subtraction is
    modelled with the release-mode wrapping semantics (the code's guards,
    e.g. `if index < self.stack.len()`, only make sense with wrapping).
  * A Vec-backed stack is a Lean list whose last element is the top.
  * Rust panics (BigInt division by zero, slice::chunks(0),
    Vec::split_off out of bounds) are the explicit `panic` outcome.
  * The one effect, std::fs::read_to_string, is an injected oracle `fs`.
  * Nested evaluation (collect/map/under) is unbounded recursion in Rust;
    here every loop step of eval_cursor consumes one unit of fuel, with a
    distinguished `fuel_out` outcome that Rust never produces.
-/
import Mathlib

set_option maxRecDepth 4000

namespace Elv

/-! ## Syntax (src/syntax.rs, with the NumLit variant used by editor.rs/eval.rs) -/

inductive Expr where
  | ident (s : String)
  | strLit (s : String)
  | numLit (n : Int)
  | quote (body : List Expr)
deriving Repr

abbrev Program := List Expr

/-! ## Cursor (src/editor.rs) -/

inductive Cursor where
  | edge (head tail : Program)
  | quote (head : Program) (inner : Cursor) (tail : Program)
  | ident (head : Program) (caret : Nat) (buffer : List Char) (tail : Program)
  | strLit (head : Program) (caret : Nat) (buffer : List Char) (tail : Program)
  | numLit (head : Program) (acc : Option Int) (tail : Program)
deriving Repr

inductive CursorShape where
  | edge (h t : Nat)
  | quote (h : Nat) (inner : CursorShape) (t : Nat)
  | ident (h t : Nat)
  | strLit (h t : Nat)
  | numLit (h t : Nat)
deriving DecidableEq, Repr

inductive Mode where
  | normal
  | ident
  | strLit
  | numLit
deriving DecidableEq, Repr

namespace Cursor

def empty : Cursor := .edge [] []

def initial (program : Program) : Cursor := .edge [] program

def shape : Cursor → CursorShape
  | .edge head tail => .edge head.length tail.length
  | .quote head inner tail => .quote head.length inner.shape tail.length
  | .ident head _ _ tail => .ident head.length tail.length
  | .strLit head _ _ tail => .strLit head.length tail.length
  | .numLit head _ tail => .numLit head.length tail.length

def mode : Cursor → Mode
  | .edge _ _ => .normal
  | .quote _ inner _ => inner.mode
  | .ident _ _ _ _ => .ident
  | .strLit _ _ _ _ => .strLit
  | .numLit _ _ _ => .numLit

/-- `Cursor::program`; panics (here: `none`) on the literal-editing foci. -/
def program : Cursor → Option Program
  | .edge head tail => some (head ++ tail)
  | .quote head inner tail => inner.program.map (fun p => head ++ .quote p :: tail)
  | _ => none

def nextExpr : Cursor → Option Expr
  | .edge _ tail => tail.head?
  | .quote _ inner _ => inner.nextExpr
  | .ident _ _ _ tail => tail.head?
  | .strLit _ _ _ tail => tail.head?
  | .numLit _ _ tail => tail.head?

def escapeToNormal : Cursor → Cursor
  | .edge head tail => .edge head tail
  | .quote head inner tail => .quote head inner.escapeToNormal tail
  | .ident head _ s tail => .edge (head ++ [.ident (String.mk s)]) tail
  | .strLit head _ s tail => .edge (head ++ [.strLit (String.mk s)]) tail
  | .numLit head n tail =>
    match n with
    | some n => .edge (head ++ [.numLit n]) tail
    | none => .edge head tail

def moveLeft : Cursor → Cursor
  | .edge head tail =>
    match head.getLast? with
    | some e => .edge head.dropLast (e :: tail)
    | none => .edge head tail
  | .quote head inner tail => .quote head inner.moveLeft tail
  | .ident head n s tail => .ident head (if 0 < n then n - 1 else n) s tail
  | .strLit head n s tail => .strLit head (if 0 < n then n - 1 else n) s tail
  | .numLit head n tail => .numLit head n tail

def moveVeryLeft : Cursor → Cursor
  | .edge head tail => .edge [] (head ++ tail)
  | .quote head inner tail => .quote head inner.moveVeryLeft tail
  | .ident head _ s tail => .ident head 0 s tail
  | .strLit head _ s tail => .strLit head 0 s tail
  | .numLit head n tail => .numLit head n tail

def moveRight : Cursor → Cursor
  | .edge head tail =>
    match tail with
    | e :: rest => .edge (head ++ [e]) rest
    | [] => .edge head tail
  | .quote head inner tail => .quote head inner.moveRight tail
  | .ident head n s tail => .ident head (if n < s.length then n + 1 else n) s tail
  | .strLit head n s tail => .strLit head (if n < s.length then n + 1 else n) s tail
  | .numLit head n tail => .numLit head n tail

def moveUp : Cursor → Cursor
  | .edge head tail =>
    match head.getLast? with
    | some (.quote program) => .quote head.dropLast (.edge program []) tail
    | _ => .edge head tail
  | .quote head inner tail => .quote head inner.moveUp tail
  | c => c

/-- `Cursor::move_out`; the collapse step calls `inner.program()`, which
panics on literal foci, hence the `Option`. -/
def moveOut : Cursor → Option Cursor
  | .quote head inner tail =>
    match inner with
    | .quote h i t =>
      (Cursor.moveOut (.quote h i t)).map (fun c => .quote head c tail)
    | c => c.program.map (fun p => .edge (head ++ [.quote p]) tail)
  | c => some c

end Cursor

/-! ## Values (src/value.rs).  `Polyset<Value>` is stored as its raw
`elems` vector (`List (Value × Int)`) inside `Val.set`; the generic
`Polyset` structure of src/polyset.rs is defined further below. -/

inductive Shape where
  | void
  | any
  | char
  | num
  | tuple (shapes : List Shape)
  | array (shape : Shape) (dim : Nat)
  | list (shape : Shape)
  | set (shape : Shape)
  | quote
deriving Repr

mutual
inductive Val where
  | num (n : Int)
  | list (xs : List Value)
  | set (xs : List (Value × Int))
  | quote (c : Cursor)

inductive Value where
  | poison
  | char (c : Char)
  | num (n : Int)
  | ptr (v : Val)
end

/-! Total order on `Value` mirroring the derived `Ord` instances
(variant order, then fields lexicographically; `Vec` compares
lexicographically with the shorter prefix smaller). -/

mutual
def compareExpr : Expr → Expr → Ordering
  | .ident a, .ident b => compare a b
  | .ident _, _ => .lt
  | _, .ident _ => .gt
  | .strLit a, .strLit b => compare a b
  | .strLit _, _ => .lt
  | _, .strLit _ => .gt
  | .numLit a, .numLit b => compare a b
  | .numLit _, _ => .lt
  | _, .numLit _ => .gt
  | .quote a, .quote b => compareProgram a b
termination_by a _ => sizeOf a

def compareProgram : List Expr → List Expr → Ordering
  | [], [] => .eq
  | [], _ :: _ => .lt
  | _ :: _, [] => .gt
  | a :: as', b :: bs =>
    match compareExpr a b with
    | .eq => compareProgram as' bs
    | o => o
termination_by l _ => sizeOf l
end

def compareOptInt : Option Int → Option Int → Ordering
  | none, none => .eq
  | none, some _ => .lt
  | some _, none => .gt
  | some a, some b => compare a b

def compareCharList : List Char → List Char → Ordering
  | [], [] => .eq
  | [], _ :: _ => .lt
  | _ :: _, [] => .gt
  | a :: as', b :: bs =>
    match compare a b with
    | .eq => compareCharList as' bs
    | o => o

def compareCursor : Cursor → Cursor → Ordering
  | .edge h t, .edge h' t' => (compareProgram h h').then (compareProgram t t')
  | .edge _ _, _ => .lt
  | _, .edge _ _ => .gt
  | .quote h c t, .quote h' c' t' =>
    (compareProgram h h').then ((compareCursor c c').then (compareProgram t t'))
  | .quote _ _ _, _ => .lt
  | _, .quote _ _ _ => .gt
  | .ident h n s t, .ident h' n' s' t' =>
    (compareProgram h h').then ((compare n n').then
      ((compareCharList s s').then (compareProgram t t')))
  | .ident _ _ _ _, _ => .lt
  | _, .ident _ _ _ _ => .gt
  | .strLit h n s t, .strLit h' n' s' t' =>
    (compareProgram h h').then ((compare n n').then
      ((compareCharList s s').then (compareProgram t t')))
  | .strLit _ _ _ _, _ => .lt
  | _, .strLit _ _ _ _ => .gt
  | .numLit h n t, .numLit h' n' t' =>
    (compareProgram h h').then ((compareOptInt n n').then (compareProgram t t'))

mutual
def compareValue : Value → Value → Ordering
  | .poison, .poison => .eq
  | .poison, _ => .lt
  | _, .poison => .gt
  | .char a, .char b => compare a b
  | .char _, _ => .lt
  | _, .char _ => .gt
  | .num a, .num b => compare a b
  | .num _, _ => .lt
  | _, .num _ => .gt
  | .ptr a, .ptr b => compareVal a b
termination_by a _ => sizeOf a

def compareVal : Val → Val → Ordering
  | .num a, .num b => compare a b
  | .num _, _ => .lt
  | _, .num _ => .gt
  | .list a, .list b => compareValueList a b
  | .list _, _ => .lt
  | _, .list _ => .gt
  | .set a, .set b => compareValuePairs a b
  | .set _, _ => .lt
  | _, .set _ => .gt
  | .quote a, .quote b => compareCursor a b
termination_by a _ => sizeOf a

def compareValueList : List Value → List Value → Ordering
  | [], [] => .eq
  | [], _ :: _ => .lt
  | _ :: _, [] => .gt
  | a :: as', b :: bs =>
    match compareValue a b with
    | .eq => compareValueList as' bs
    | o => o
termination_by l _ => sizeOf l

def compareValuePairs : List (Value × Int) → List (Value × Int) → Ordering
  | [], [] => .eq
  | [], _ :: _ => .lt
  | _ :: _, [] => .gt
  | (a, m) :: as', (b, n) :: bs =>
    match compareValue a b with
    | .eq =>
      match compare m n with
      | .eq => compareValuePairs as' bs
      | o => o
    | o => o
termination_by l _ => sizeOf l
end

/-- Derived structural `PartialEq` on `Value` (it agrees with the derived
`Ord`: two values are equal exactly when they compare `Equal`). -/
def beqValue (a b : Value) : Bool := compareValue a b == .eq

/-! ## Polyset (src/polyset.rs), generic over an explicit comparator
(the Rust code is generic over `T: Ord`). -/

structure Polyset (T : Type) where
  elems : List (T × Int)
deriving Repr

namespace Polyset

variable {T : Type}

/-- Pair ordering used by `data.sort()` in `FromIterator<(T, i64)>`
(the derived `Ord` on `(T, i64)`: element first, then multiplicity). -/
def pairCmp (cmp : T → T → Ordering) (p q : T × Int) : Ordering :=
  (cmp p.1 q.1).then (compare p.2 q.2)

/-- Stable insertion: an element is placed after every element it does not
strictly precede, which reproduces Rust's stable `sort`. -/
def insertSorted (cmp : T → T → Ordering) (x : T) : List T → List T
  | [] => [x]
  | y :: ys =>
    match cmp x y with
    | .lt => x :: y :: ys
    | _ => y :: insertSorted cmp x ys

def sortBy (cmp : T → T → Ordering) (l : List T) : List T :=
  l.foldl (fun acc x => insertSorted cmp x acc) []

/-- The merge loop of `FromIterator<(T, i64)>`: sum the multiplicities of
adjacent pairs with equal (`==`) elements. -/
def mergeRun (cmp : T → T → Ordering) : T × Int → List (T × Int) → List (T × Int)
  | (pivot, m), [] => [(pivot, m)]
  | (pivot, m), (x, n) :: rest =>
    match cmp x pivot with
    | .eq => mergeRun cmp (pivot, m + n) rest
    | _ => (pivot, m) :: mergeRun cmp (x, n) rest

/-- `Polyset::from_iter` over `(element, multiplicity)` pairs: sort, then
merge adjacent equal elements. -/
def fromPairs (cmp : T → T → Ordering) (data : List (T × Int)) : Polyset T :=
  match sortBy (pairCmp cmp) data with
  | [] => ⟨[]⟩
  | p :: rest => ⟨mergeRun cmp p rest⟩

/-- `Polyset::from_vec` (each occurrence contributes multiplicity 1). -/
def fromVec (cmp : T → T → Ordering) (data : List T) : Polyset T :=
  fromPairs cmp (data.map (fun v => (v, 1)))

def keys (s : Polyset T) : List T := s.elems.map Prod.fst

def union (cmp : T → T → Ordering) (a b : Polyset T) : Polyset T :=
  fromPairs cmp (a.elems ++ b.elems)

/-- The synchronized two-pointer loop of `Polyset::join`. -/
def joinAux (cmp : T → T → Ordering) : List (T × Int) → List (T × Int) → List (T × Int)
  | (x, m) :: as', (y, n) :: bs =>
    match cmp x y with
    | .eq => (x, m * n) :: joinAux cmp as' bs
    | .lt => joinAux cmp as' ((y, n) :: bs)
    | .gt => joinAux cmp ((x, m) :: as') bs
  | _, _ => []

def join (cmp : T → T → Ordering) (a b : Polyset T) : Polyset T :=
  ⟨joinAux cmp a.elems b.elems⟩

end Polyset

/-! ## Value constructors and accessors (src/value.rs) -/

namespace Value

/-- `Value::new_num`: store inline when the BigInt fits in an i64. -/
def newNum (n : Int) : Value :=
  if -(2 ^ 63) ≤ n ∧ n < 2 ^ 63 then .num n else .ptr (.num n)

def newCharList (l : List Char) : Value := .ptr (.list (l.map .char))

/-- `Value::new_str`. -/
def newStr (s : String) : Value := newCharList s.data

def newBool (b : Bool) : Value := .num (if b then 1 else 0)

def newList (l : List Value) : Value := .ptr (.list l)

def newSet (s : Polyset Value) : Value := .ptr (.set s.elems)

def newQuote (c : Cursor) : Value := .ptr (.quote c)

def asChar : Value → Option Char
  | .char c => some c
  | _ => none

def asNum : Value → Option Int
  | .num n => some n
  | .ptr (.num n) => some n
  | _ => none

/-- `Value::as_i64` (`BigInt::to_i64` yields `None` outside the i64 range). -/
def asI64 : Value → Option Int
  | .num n => some n
  | .ptr (.num n) => if -(2 ^ 63) ≤ n ∧ n < 2 ^ 63 then some n else none
  | _ => none

def asBool (v : Value) : Option Bool :=
  match v.asI64 with
  | some 0 => some false
  | some 1 => some true
  | _ => none

def asList : Value → Option (List Value)
  | .ptr (.list l) => some l
  | _ => none

/-- `Value::as_set`; note the coercion arm: a List is collected into a
Polyset with multiplicity 1 per occurrence. -/
def asSet : Value → Option (Polyset Value)
  | .ptr (.list l) => some (Polyset.fromVec compareValue l)
  | .ptr (.set s) => some ⟨s⟩
  | _ => none

def asQuote : Value → Option Cursor
  | .ptr (.quote c) => some c
  | _ => none

def asSlice : Value → Option (List Value)
  | .ptr (.list l) => some l
  | _ => none

def asString (v : Value) : Option (List Char) :=
  v.asSlice.bind (fun l => l.mapM asChar)

end Value

/-! ## Shape computation (src/value.rs).  `Shape::union`'s recursion is not
structural (the fold arms union intermediate results), so it is defined
with a fuel parameter; every recursive call strictly decreases the maximum
height of the two arguments, so `2 ^ (shapeSize a + shapeSize b)` fuel is far
more than the recursion can consume and the `0` case is unreachable. -/

mutual
def shapeSize : Shape → Nat
  | .tuple l => 1 + shapeSizeList l
  | .array s _ => 1 + shapeSize s
  | .list s => 1 + shapeSize s
  | .set s => 1 + shapeSize s
  | _ => 1
termination_by s => sizeOf s

def shapeSizeList : List Shape → Nat
  | [] => 0
  | s :: rest => shapeSize s + shapeSizeList rest
termination_by l => sizeOf l
end

def unionFuel : Nat → Shape → Shape → Shape
  | 0, _, _ => .any
  | f + 1, a, b =>
    match a, b with
    | .void, s2 => s2
    | s1, .void => s1
    | .any, _ => .any
    | _, .any => .any
    | .char, .char => .char
    | .num, .num => .num
    | .tuple s1, .tuple s2 =>
      if s1.length = s2.length then
        .tuple (List.zipWith (unionFuel f) s1 s2)
      else
        unionFuel f (s1.foldl (unionFuel f) .void) (s2.foldl (unionFuel f) .void)
    | .tuple s1, .array s2 d =>
      if s1.length = d then .array (s1.foldl (unionFuel f) s2) d
      else .list (s1.foldl (unionFuel f) s2)
    | .tuple s1, .list s2 => .list (s1.foldl (unionFuel f) s2)
    | .array s1 d, .tuple s2 =>
      if s2.length = d then .array (s2.foldl (unionFuel f) s1) d
      else .list (s2.foldl (unionFuel f) s1)
    | .array s1 d1, .array s2 d2 =>
      if d1 = d2 then .array (unionFuel f s1 s2) d1 else .list (unionFuel f s1 s2)
    | .array s1 _, .list s2 => .list (unionFuel f s1 s2)
    | .list s1, .tuple s2 => .list (s2.foldl (unionFuel f) s1)
    | .list s1, .array s2 _ => .list (unionFuel f s1 s2)
    | .list s1, .list s2 => .list (unionFuel f s1 s2)
    | .set s1, .set s2 => .set (unionFuel f s1 s2)
    | _, _ => .any

def Shape.union (a b : Shape) : Shape := unionFuel (2 ^ (shapeSize a + shapeSize b)) a b

mutual
def beqShape : Shape → Shape → Bool
  | .void, .void => true
  | .any, .any => true
  | .char, .char => true
  | .num, .num => true
  | .tuple a, .tuple b => beqShapeList a b
  | .array a d, .array b e => beqShape a b && d == e
  | .list a, .list b => beqShape a b
  | .set a, .set b => beqShape a b
  | .quote, .quote => true
  | _, _ => false
termination_by a _ => sizeOf a

def beqShapeList : List Shape → List Shape → Bool
  | [], [] => true
  | a :: as', b :: bs => beqShape a b && beqShapeList as' bs
  | _, _ => false
termination_by l _ => sizeOf l
end

def Shape.isString : Shape → Bool
  | .array s _ => beqShape s .char
  | .list s => beqShape s .char
  | _ => false

mutual
/-- `Shape::repr`. -/
def shapeRepr (s : Shape) : Value :=
  if s.isString then Value.newStr "string" else
  match s with
  | .void => Value.newStr "void"
  | .any => Value.newStr "any"
  | .char => Value.newStr "char"
  | .num => Value.newStr "num"
  | .tuple shapes => Value.newList (Value.newStr "tuple" :: shapeReprList shapes)
  | .array sh dim => Value.newList [Value.newStr "array", shapeRepr sh, Value.num dim]
  | .list sh => Value.newList [Value.newStr "list", shapeRepr sh]
  | .set sh => Value.newList [Value.newStr "set", shapeRepr sh]
  | .quote => Value.newStr "quote"
termination_by sizeOf s

def shapeReprList : List Shape → List Value
  | [] => []
  | s :: rest => shapeRepr s :: shapeReprList rest
termination_by l => sizeOf l
end

mutual
/-- `Value::shape`. -/
def Value.shape : Value → Shape
  | .poison => .any
  | .char _ => .char
  | .num _ => .num
  | .ptr v => Val.shape v

/-- `Val::shape`. -/
def Val.shape : Val → Shape
  | .num _ => .num
  | .list l =>
    let shapes := valueShapes l
    let folded := shapes.foldl Shape.union .void
    if l.length ≤ 8 && shapes.any (fun s => !beqShape s folded) then
      .tuple shapes
    else
      .array folded l.length
  | .set s => .set ((pairShapes s).foldl Shape.union .void)
  | .quote _ => .quote

def valueShapes : List Value → List Shape
  | [] => []
  | v :: rest => Value.shape v :: valueShapes rest

def pairShapes : List (Value × Int) → List Shape
  | [] => []
  | (v, _) :: rest => Value.shape v :: pairShapes rest
end

/-! ## Miscellaneous helpers used by the primitive table -/

/-- Rust `as usize` on a (Big)Int: wrap modulo `2^64`. -/
def toUsize (n : Int) : Nat := (n % 2 ^ 64).toNat

/-- Wrapping usize subtraction (release-mode semantics). -/
def wsub (a b : Nat) : Nat := (a % 2 ^ 64 + 2 ^ 64 - b % 2 ^ 64) % 2 ^ 64

/-- `slice::split` / `str::split` on a one-element pattern: every separator
splits, adjacent separators produce empty pieces. -/
def splitBy (p : α → Bool) : List α → List (List α)
  | [] => [[]]
  | x :: xs =>
    if p x then [] :: splitBy p xs
    else
      match splitBy p xs with
      | piece :: rest => (x :: piece) :: rest
      | [] => [[x]]

/-- BigInt `from_str` digit run: at least one ASCII digit, nothing else. -/
def digitsToNat (l : List Char) : Option Nat :=
  if l ≠ [] ∧ l.all (·.isDigit) then
    some (l.foldl (fun a c => 10 * a + (c.toNat - '0'.toNat)) 0)
  else none

/-- BigInt `from_str`: optional sign, then digits. -/
def parseIntChars : List Char → Option Int
  | '+' :: rest => (digitsToNat rest).map Int.ofNat
  | '-' :: rest => (digitsToNat rest).map (fun n => -(Int.ofNat n))
  | s => (digitsToNat s).map Int.ofNat

/-- `p` is a leading segment of the second list: return what follows. -/
def dropLead : List Char → List Char → Option (List Char)
  | [], h => some h
  | _ :: _, [] => none
  | c :: p, d :: h => if c = d then dropLead p h else none

def replaceCore (p r : List Char) : Nat → List Char → List Char
  | 0, h => h
  | _ + 1, [] => []
  | f + 1, d :: h =>
    match dropLead p (d :: h) with
    | some rest => r ++ replaceCore p r f rest
    | none => d :: replaceCore p r f h

/-- `str::replace`: non-overlapping left-to-right matches; an empty pattern
matches at every character boundary. -/
def strReplace (h p r : List Char) : List Char :=
  if p = [] then r ++ h.foldr (fun c acc => c :: (r ++ acc)) []
  else replaceCore p r h.length h

/-- `slice::chunks` (the caller rules out chunk size 0, which panics). -/
def chunksList : Nat → List α → List (List α)
  | _, [] => []
  | 0, _ :: _ => []
  | n + 1, x :: xs => (x :: xs).take (n + 1) :: chunksList (n + 1) (xs.drop n)
termination_by _ l => l.length
decreasing_by simp [List.length_drop]; omega

/-- Inclusive i64/BigInt range `lo ..= hi`. -/
def intRangeIncl (lo hi : Int) : List Int :=
  if lo ≤ hi then (List.range (hi - lo + 1).toNat).map (fun i => lo + i) else []

/-- Inclusive char range `lo ..= hi` (skips invalid scalar values). -/
def charRangeIncl (lo hi : Char) : List Char :=
  (List.range' lo.toNat (hi.toNat + 1 - lo.toNat)).filterMap
    (fun n => if n.isValidChar then some (Char.ofNat n) else none)

/-! ## VM and Trace (src/eval.rs) -/

inductive VM where
  | mk (parent : Option VM) (stack : List Value)

def VM.parent : VM → Option VM
  | .mk p _ => p

def VM.stack : VM → List Value
  | .mk _ s => s

def VM.new : VM := .mk none []

def VM.newChild (vm : VM) : VM := .mk (some vm) []

def VM.setStack : VM → List Value → VM
  | .mk p _, s => .mk p s

/-- `Vec::push`: the top of the stack is the last element. -/
def VM.push (vm : VM) (v : Value) : VM := vm.setStack (vm.stack ++ [v])

/-- `Vec::pop`. -/
def VM.pop (vm : VM) : Option (Value × VM) :=
  match vm.stack.getLast? with
  | none => none
  | some v => some (v, vm.setStack vm.stack.dropLast)

/-- `Trace = HashMap<CursorShape, Vec<VM>>`, as an association list (only
keyed lookup is ever observed). -/
abbrev Trace := List (CursorShape × List VM)

def addEntry : Trace → CursorShape → VM → Trace
  | [], k, vm => [(k, [vm])]
  | (k', vms) :: rest, k, vm =>
    if k = k' then (k', vms ++ [vm]) :: rest else (k', vms) :: addEntry rest k vm

/-- `VM::add_snapshot`. -/
def addSnapshot (vm : VM) (tr : Trace) (k : CursorShape) : Trace := addEntry tr k vm

def traceAt (tr : Trace) (k : CursorShape) : Option (List VM) :=
  (tr.find? (fun e => e.1 == k)).map (fun e => e.2)

/-- Outcome of one primitive rule: `fail` is a `None?` escape from the
try block (the partially popped stack is kept, a Poison gets pushed by
`eval_prim`), `panic` is a Rust panic, `fuelOut` is the artificial
out-of-fuel outcome of nested evaluation. -/
inductive POut where
  | panic
  | fuelOut
  | fail (vm : VM) (tr : Trace)
  | ok (vm : VM) (tr : Trace)

/-- Outcome of `eval_prim` / `eval_cursor`. -/
inductive EOut where
  | panic
  | fuelOut
  | ok (vm : VM) (tr : Trace)

/-! The individual arms of the `eval_prim` match (src/eval.rs:47-338).
Each `armX vm tr` is the body of the corresponding `match prim` arm,
with `self.pop()?` etc. threading the VM state explicitly. -/

def armDel (vm : VM) (tr : Trace) : POut :=
  match vm.pop with
  | none => .fail vm tr
  | some (_, vm) => .ok vm tr

def armDup (vm : VM) (tr : Trace) : POut :=
  match vm.pop with
  | none => .fail vm tr
  | some (v, vm) => .ok ((vm.push v).push v) tr

def armFlip (vm : VM) (tr : Trace) : POut :=
  match vm.pop with
  | none => .fail vm tr
  | some (fst, vm) =>
    match vm.pop with
    | none => .fail vm tr
    | some (snd, vm) => .ok ((vm.push fst).push snd) tr

def armCopy (vm : VM) (tr : Trace) : POut :=
  match vm.pop with
  | none => .fail vm tr
  | some (v, vm) =>
    match v.asNum with
    | none => .fail vm tr
    | some n =>
      let index := toUsize n
      match vm.stack.get? (wsub (wsub vm.stack.length 1) index) with
      | none => .fail vm tr
      | some value => .ok (vm.push value) tr

def armMove (vm : VM) (tr : Trace) : POut :=
  match vm.pop with
  | none => .fail vm tr
  | some (v, vm) =>
    match v.asNum with
    | none => .fail vm tr
    | some n =>
      let offset := toUsize n
      let index := wsub (wsub vm.stack.length 1) offset
      if h : index < vm.stack.length then
        .ok (vm.setStack (vm.stack.eraseIdx index ++ [vm.stack.get ⟨index, h⟩])) tr
      else .fail vm tr

def armSb (vm : VM) (tr : Trace) : POut :=
  match vm.pop with
  | none => .fail vm tr
  | some (new, vm) =>
    match vm.pop with
    | none => .fail vm tr
    | some (test, vm) =>
      match vm.pop with
      | none => .fail vm tr
      | some (value, vm) =>
        if beqValue value test then .ok (vm.push new) tr else .ok (vm.push value) tr

def armS (vm : VM) (tr : Trace) : POut :=
  match vm.pop with
  | none => .fail vm tr
  | some (arg3, vm) =>
    match vm.pop with
    | none => .fail vm tr
    | some (arg2, vm) =>
      match vm.pop with
      | none => .fail vm tr
      | some (hv, vm) =>
        match hv.asString with
        | none => .fail vm tr
        | some haystack =>
          match arg2.asString with
          | none => .fail vm tr
          | some pat =>
            match arg3.asString with
            | none => .fail vm tr
            | some rep => .ok (vm.push (Value.newCharList (strReplace haystack pat rep))) tr

def armInc (vm : VM) (tr : Trace) : POut :=
  match vm.pop with
  | none => .fail vm tr
  | some (v, vm) =>
    match v.asNum with
    | none => .fail vm tr
    | some a => .ok (vm.push (Value.newNum (a + 1))) tr

def armAdd (vm : VM) (tr : Trace) : POut :=
  match vm.pop with
  | none => .fail vm tr
  | some (bv, vm) =>
    match bv.asNum with
    | none => .fail vm tr
    | some b =>
      match vm.pop with
      | none => .fail vm tr
      | some (av, vm) =>
        match av.asNum with
        | none => .fail vm tr
        | some a => .ok (vm.push (Value.newNum (a + b))) tr

def armMul (vm : VM) (tr : Trace) : POut :=
  match vm.pop with
  | none => .fail vm tr
  | some (bv, vm) =>
    match bv.asNum with
    | none => .fail vm tr
    | some b =>
      match vm.pop with
      | none => .fail vm tr
      | some (av, vm) =>
        match av.asNum with
        | none => .fail vm tr
        | some a => .ok (vm.push (Value.newNum (a * b))) tr

/-- The `"/"` arm: BigInt division panics on a zero divisor. -/
def armDiv (vm : VM) (tr : Trace) : POut :=
  match vm.pop with
  | none => .fail vm tr
  | some (bv, vm) =>
    match bv.asNum with
    | none => .fail vm tr
    | some b =>
      match vm.pop with
      | none => .fail vm tr
      | some (av, vm) =>
        match av.asNum with
        | none => .fail vm tr
        | some a => if b = 0 then .panic else .ok (vm.push (Value.newNum (Int.tdiv a b))) tr

def armEqq (vm : VM) (tr : Trace) : POut :=
  match vm.pop with
  | none => .fail vm tr
  | some (b, vm) =>
    match vm.pop with
    | none => .fail vm tr
    | some (a, vm) => .ok (vm.push (Value.newBool (beqValue a b))) tr

def armLe (vm : VM) (tr : Trace) : POut :=
  match vm.pop with
  | none => .fail vm tr
  | some (bv, vm) =>
    match bv.asNum with
    | none => .fail vm tr
    | some b =>
      match vm.pop with
      | none => .fail vm tr
      | some (av, vm) =>
        match av.asNum with
        | none => .fail vm tr
        | some a => .ok (vm.push (Value.newBool (decide (a ≤ b)))) tr

def armGe (vm : VM) (tr : Trace) : POut :=
  match vm.pop with
  | none => .fail vm tr
  | some (bv, vm) =>
    match bv.asNum with
    | none => .fail vm tr
    | some b =>
      match vm.pop with
      | none => .fail vm tr
      | some (av, vm) =>
        match av.asNum with
        | none => .fail vm tr
        | some a => .ok (vm.push (Value.newBool (decide (b ≤ a)))) tr

def armAnd (vm : VM) (tr : Trace) : POut :=
  match vm.pop with
  | none => .fail vm tr
  | some (bv, vm) =>
    match bv.asBool with
    | none => .fail vm tr
    | some b =>
      match vm.pop with
      | none => .fail vm tr
      | some (av, vm) =>
        match av.asBool with
        | none => .fail vm tr
        | some a => .ok (vm.push (Value.newBool (a && b))) tr

def armOr (vm : VM) (tr : Trace) : POut :=
  match vm.pop with
  | none => .fail vm tr
  | some (bv, vm) =>
    match bv.asBool with
    | none => .fail vm tr
    | some b =>
      match vm.pop with
      | none => .fail vm tr
      | some (av, vm) =>
        match av.asBool with
        | none => .fail vm tr
        | some a => .ok (vm.push (Value.newBool (a || b))) tr

def armRead (fs : List Char → Option (List Char)) (vm : VM) (tr : Trace) : POut :=
  match vm.pop with
  | none => .fail vm tr
  | some (v, vm) =>
    match v.asString with
    | none => .fail vm tr
    | some path =>
      match fs path with
      | none => .fail vm tr
      | some contents => .ok (vm.push (Value.newCharList contents)) tr

def armLines (vm : VM) (tr : Trace) : POut :=
  match vm.pop with
  | none => .fail vm tr
  | some (v, vm) =>
    match v.asString with
    | none => .fail vm tr
    | some s =>
      let vals := (splitBy (fun c => c == '\n') s).map Value.newCharList
      let vals :=
        match vals.getLast? with
        | some last => if beqValue last (Value.newStr "") then vals.dropLast else vals
        | none => vals
      .ok (vm.push (Value.newList vals)) tr

def armWords (vm : VM) (tr : Trace) : POut :=
  match vm.pop with
  | none => .fail vm tr
  | some (v, vm) =>
    match v.asString with
    | none => .fail vm tr
    | some s =>
      .ok (vm.push (Value.newList ((splitBy (fun c => !c.isAlphanum) s).map Value.newCharList))) tr

def armSplit (vm : VM) (tr : Trace) : POut :=
  match vm.pop with
  | none => .fail vm tr
  | some (sep, vm) =>
    match vm.pop with
    | none => .fail vm tr
    | some (lv, vm) =>
      match lv.asList with
      | none => .fail vm tr
      | some list =>
        .ok (vm.push (Value.newList ((splitBy (fun v => beqValue v sep) list).map Value.newList))) tr

/-- The `"splitat"` arm: `Vec::split_off` panics when the (adjusted,
usize-cast) index exceeds the length. -/
def armSplitAt (vm : VM) (tr : Trace) : POut :=
  match vm.pop with
  | none => .fail vm tr
  | some (iv, vm) =>
    match iv.asNum with
    | none => .fail vm tr
    | some n =>
      match vm.pop with
      | none => .fail vm tr
      | some (lv, vm) =>
        match lv.asList with
        | none => .fail vm tr
        | some list =>
          let n := if n < 0 then (list.length : Int) + n else n
          let k := toUsize n
          if k > list.length then .panic
          else .ok ((vm.push (Value.newList (list.drop k))).push (Value.newList (list.take k))) tr

def armTake (vm : VM) (tr : Trace) : POut :=
  match vm.pop with
  | none => .fail vm tr
  | some (cv, vm) =>
    match cv.asNum with
    | none => .fail vm tr
    | some count =>
      match vm.pop with
      | none => .fail vm tr
      | some (lv, vm) =>
        match lv.asList with
        | none => .fail vm tr
        | some list =>
          let count := if count < 0 then max 0 ((list.length : Int) + count) else count
          .ok (vm.push (Value.newList (list.take (toUsize count)))) tr

def armIrange (vm : VM) (tr : Trace) : POut :=
  match vm.pop with
  | none => .fail vm tr
  | some (uv, vm) =>
    match uv.asNum with
    | none => .fail vm tr
    | some upper =>
      match vm.pop with
      | none => .fail vm tr
      | some (lv, vm) =>
        match lv.asNum with
        | none => .fail vm tr
        | some lower =>
          .ok (vm.push (Value.newList ((intRangeIncl lower upper).map Value.newNum))) tr

def armCrange (vm : VM) (tr : Trace) : POut :=
  match vm.pop with
  | none => .fail vm tr
  | some (uv, vm) =>
    match uv.asChar with
    | none => .fail vm tr
    | some upper =>
      match vm.pop with
      | none => .fail vm tr
      | some (lv, vm) =>
        match lv.asChar with
        | none => .fail vm tr
        | some lower =>
          .ok (vm.push (Value.newList
            ((charRangeIncl lower upper).map (fun c => Value.newCharList [c])))) tr

def armIndexed (vm : VM) (tr : Trace) : POut :=
  match vm.pop with
  | none => .fail vm tr
  | some (lv, vm) =>
    match lv.asList with
    | none => .fail vm tr
    | some list =>
      .ok (vm.push (Value.newList
        (list.enum.map (fun p => Value.newList [Value.newNum p.1, p.2])))) tr

def armNum (vm : VM) (tr : Trace) : POut :=
  match vm.pop with
  | none => .fail vm tr
  | some (v, vm) =>
    match v.asString with
    | none => .fail vm tr
    | some s =>
      match parseIntChars s with
      | some n => .ok (vm.push (Value.newNum n)) tr
      | none => .ok (vm.push .poison) tr

def armEach (vm : VM) (tr : Trace) : POut :=
  match vm.pop with
  | none => .fail vm tr
  | some (lv, vm) =>
    match lv.asList with
    | none => .fail vm tr
    | some list => .ok (list.reverse.foldl VM.push vm) tr

def armSet (vm : VM) (tr : Trace) : POut :=
  match vm.pop with
  | none => .fail vm tr
  | some (arg, vm) =>
    match arg.asList with
    | none => .fail vm tr
    | some list => .ok (vm.push (Value.newSet (Polyset.fromVec compareValue list))) tr

def armNub (vm : VM) (tr : Trace) : POut :=
  match vm.pop with
  | none => .fail vm tr
  | some (v, vm) =>
    match v.asSet with
    | none => .fail vm tr
    | some set => .ok (vm.push (Value.newList set.keys)) tr

def armIota (vm : VM) (tr : Trace) : POut :=
  match vm.pop with
  | none => .fail vm tr
  | some (cv, vm) =>
    match cv.asNum with
    | none => .fail vm tr
    | some count =>
      .ok (vm.push (Value.newList
        ((List.range count.toNat).map (fun i => Value.newNum (Int.ofNat i))))) tr

/-- The `"chunks"` arm: `slice::chunks` panics on chunk size 0. -/
def armChunks (vm : VM) (tr : Trace) : POut :=
  match vm.pop with
  | none => .fail vm tr
  | some (sv, vm) =>
    match sv.asNum with
    | none => .fail vm tr
    | some n =>
      match vm.pop with
      | none => .fail vm tr
      | some (lv, vm) =>
        match lv.asList with
        | none => .fail vm tr
        | some list =>
          let size := toUsize n
          if size = 0 then .panic
          else .ok (vm.push (Value.newList ((chunksList size list).map Value.newList))) tr

/-- The `"frames"` arm; note the loop bound `0 .. list.len() - size`. -/
def armFrames (vm : VM) (tr : Trace) : POut :=
  match vm.pop with
  | none => .fail vm tr
  | some (sv, vm) =>
    match sv.asNum with
    | none => .fail vm tr
    | some n =>
      match vm.pop with
      | none => .fail vm tr
      | some (lv, vm) =>
        match lv.asList with
        | none => .fail vm tr
        | some list =>
          let size := toUsize n
          if size > list.length then .ok (vm.push (Value.newList [])) tr
          else
            .ok (vm.push (Value.newList
              ((List.range (list.length - size)).map
                (fun i => Value.newList ((list.drop i).take size))))) tr

def armLen (vm : VM) (tr : Trace) : POut :=
  match vm.pop with
  | none => .fail vm tr
  | some (arg, vm) =>
    match arg.asSlice with
    | none => .fail vm tr
    | some l => .ok (vm.push (Value.newNum (Int.ofNat l.length))) tr

def sumFold : List Value → Int → Option Int
  | [], acc => some acc
  | v :: rest, acc =>
    match v.asNum with
    | none => none
    | some n => sumFold rest (acc + n)

def armSum (vm : VM) (tr : Trace) : POut :=
  match vm.pop with
  | none => .fail vm tr
  | some (arg, vm) =>
    match arg.asList with
    | none => .fail vm tr
    | some list =>
      match sumFold list 0 with
      | none => .fail vm tr
      | some r => .ok (vm.push (Value.newNum r)) tr

def maxFold : List Value → Int → Option Int
  | [], acc => some acc
  | v :: rest, acc =>
    match v.asNum with
    | none => none
    | some n => maxFold rest (max acc n)

def armMax (vm : VM) (tr : Trace) : POut :=
  match vm.pop with
  | none => .fail vm tr
  | some (arg, vm) =>
    match arg.asList with
    | none => .fail vm tr
    | some list =>
      match maxFold list (-(2 ^ 63)) with
      | none => .fail vm tr
      | some r => .ok (vm.push (Value.newNum r)) tr

def armRsort (vm : VM) (tr : Trace) : POut :=
  match vm.pop with
  | none => .fail vm tr
  | some (arg, vm) =>
    match arg.asList with
    | none => .fail vm tr
    | some list =>
      .ok (vm.push (Value.newList (Polyset.sortBy (fun a b => compareValue b a) list))) tr

def armAppend (vm : VM) (tr : Trace) : POut :=
  match vm.pop with
  | none => .fail vm tr
  | some (bv, vm) =>
    match bv.asList with
    | none => .fail vm tr
    | some b =>
      match vm.pop with
      | none => .fail vm tr
      | some (av, vm) =>
        match av.asList with
        | none => .fail vm tr
        | some a => .ok (vm.push (Value.newList (a ++ b))) tr

def armFind (vm : VM) (tr : Trace) : POut :=
  match vm.pop with
  | none => .fail vm tr
  | some (tv, vm) =>
    match tv.asList with
    | none => .fail vm tr
    | some table =>
      match vm.pop with
      | none => .fail vm tr
      | some (needle, vm) =>
        match table.findIdx? (fun v => beqValue v needle) with
        | none => .ok (vm.push .poison) tr
        | some i => .ok (vm.push (Value.newNum (Int.ofNat i))) tr

def armUnionPrim (vm : VM) (tr : Trace) : POut :=
  match vm.pop with
  | none => .fail vm tr
  | some (av, vm) =>
    match av.asSet with
    | none => .fail vm tr
    | some a =>
      match vm.pop with
      | none => .fail vm tr
      | some (bv, vm) =>
        match bv.asSet with
        | none => .fail vm tr
        | some b => .ok (vm.push (Value.newSet (Polyset.union compareValue a b))) tr

def armJoinPrim (vm : VM) (tr : Trace) : POut :=
  match vm.pop with
  | none => .fail vm tr
  | some (av, vm) =>
    match av.asSet with
    | none => .fail vm tr
    | some a =>
      match vm.pop with
      | none => .fail vm tr
      | some (bv, vm) =>
        match bv.asSet with
        | none => .fail vm tr
        | some b => .ok (vm.push (Value.newSet (Polyset.join compareValue a b))) tr

def armShape (vm : VM) (tr : Trace) : POut :=
  match vm.pop with
  | none => .fail vm tr
  | some (arg, vm) => .ok (vm.push (shapeRepr arg.shape)) tr

/-! The higher-order arms create child VMs and recurse into
`eval_cursor`, so they are mutually recursive with the evaluation loop.
`evalGo` is the `while let` loop of `eval_cursor`; the leading snapshot
and the fuel check of `eval_cursor` appear inline at each call site
(compare `evalCursor` below, whose body is exactly that sequence), and the
identifier case of the loop inlines `eval_prim`'s Poison fold (`evalPrim`
below) so that the whole block is structural in the fuel argument.  Fuel
is consumed at every hop; Rust's recursion is unbounded, so any result
other than `fuelOut` is reached by every sufficiently large fuel. -/

mutual

def armCollect (fs : List Char → Option (List Char)) (fuel : Nat)
    (vm : VM) (tr : Trace) : POut :=
  match vm.pop with
  | none => .fail vm tr
  | some (arg, vm) =>
    match arg.asQuote with
    | none => .fail vm tr
    | some cursor =>
      let child := vm.newChild
      match fuel with
      | 0 => .fuelOut
      | f + 1 =>
        match evalGo fs f child (addSnapshot child tr cursor.shape) cursor with
        | .panic => .panic
        | .fuelOut => .fuelOut
        | .ok cvm tr => .ok (vm.push (Value.newList cvm.stack)) tr

def mapGo (fs : List Char → Option (List Char)) (fuel : Nat)
    (selfVm : VM) (cursor : Cursor)
    (l : List Value) (tr : Trace) (acc : List Value) : POut :=
  match l with
  | [] => .ok (selfVm.push (Value.newList acc)) tr
  | v :: rest =>
    let child := selfVm.newChild.push v
    match fuel with
    | 0 => .fuelOut
    | f + 1 =>
      match evalGo fs f child (addSnapshot child tr cursor.shape) cursor with
      | .panic => .panic
      | .fuelOut => .fuelOut
      | .ok cvm tr => mapGo fs f selfVm cursor rest tr (acc ++ cvm.stack)

def armMap (fs : List Char → Option (List Char)) (fuel : Nat)
    (vm : VM) (tr : Trace) : POut :=
  match vm.pop with
  | none => .fail vm tr
  | some (arg2, vm) =>
    match vm.pop with
    | none => .fail vm tr
    | some (arg1, vm) =>
      match arg1.asList with
      | none => .fail vm tr
      | some list =>
        match arg2.asQuote with
        | none => .fail vm tr
        | some cursor =>
          match fuel with
          | 0 => .fuelOut
          | f + 1 => mapGo fs f vm cursor list tr []

def armUnder (fs : List Char → Option (List Char)) (fuel : Nat)
    (vm : VM) (tr : Trace) : POut :=
  match vm.pop with
  | none => .fail vm tr
  | some (cv, vm) =>
    match cv.asNum with
    | none => .fail vm tr
    | some n =>
      match vm.pop with
      | none => .fail vm tr
      | some (qv, vm) =>
        match qv.asQuote with
        | none => .fail vm tr
        | some cursor =>
          let count := toUsize n
          let len := vm.stack.length
          let index := wsub len count
          if index > len then .fail vm tr
          else
            let temp := vm.stack.drop index
            let vmK := vm.setStack (vm.stack.take index)
            match fuel with
            | 0 => .fuelOut
            | f + 1 =>
              match evalGo fs f vmK (addSnapshot vmK tr cursor.shape) cursor with
              | .panic => .panic
              | .fuelOut => .fuelOut
              | .ok vm' tr => .ok (vm'.setStack (vm'.stack ++ temp)) tr

/-- The `match prim` table of `VM::eval_prim`; the final arm is the
unrecognized-identifier rule. -/
def evalPrimArm (fs : List Char → Option (List Char)) (fuel : Nat)
    (prim : String) (vm : VM) (tr : Trace) : POut :=
  match prim with
  | "del" => armDel vm tr
  | "dup" => armDup vm tr
  | "flip" => armFlip vm tr
  | "copy" => armCopy vm tr
  | "move" => armMove vm tr
  | "sb" => armSb vm tr
  | "s" => armS vm tr
  | "inc" => armInc vm tr
  | "+" => armAdd vm tr
  | "*" => armMul vm tr
  | "/" => armDiv vm tr
  | "==" => armEqq vm tr
  | "=<" => armLe vm tr
  | ">=" => armGe vm tr
  | "and" => armAnd vm tr
  | "or" => armOr vm tr
  | "read" => armRead fs vm tr
  | "lines" => armLines vm tr
  | "words" => armWords vm tr
  | "split" => armSplit vm tr
  | "splitat" => armSplitAt vm tr
  | "take" => armTake vm tr
  | "irange" => armIrange vm tr
  | "crange" => armCrange vm tr
  | "indexed" => armIndexed vm tr
  | "num" => armNum vm tr
  | "collect" =>
    match fuel with
    | 0 => .fuelOut
    | f + 1 => armCollect fs f vm tr
  | "each" => armEach vm tr
  | "set" => armSet vm tr
  | "nub" => armNub vm tr
  | "iota" => armIota vm tr
  | "chunks" => armChunks vm tr
  | "frames" => armFrames vm tr
  | "len" => armLen vm tr
  | "sum" => armSum vm tr
  | "max" => armMax vm tr
  | "rsort" => armRsort vm tr
  | "append" => armAppend vm tr
  | "find" => armFind vm tr
  | "union" => armUnionPrim vm tr
  | "join" => armJoinPrim vm tr
  | "map" =>
    match fuel with
    | 0 => .fuelOut
    | f + 1 => armMap fs f vm tr
  | "under" =>
    match fuel with
    | 0 => .fuelOut
    | f + 1 => armUnder fs f vm tr
  | "shape" => armShape vm tr
  | _ => .fail vm tr

/-- The `while let Some(expr) = cursor.next_expr()` loop of
`VM::eval_cursor` (each iteration consumes one unit of fuel). -/
def evalGo (fs : List Char → Option (List Char)) (fuel : Nat)
    (vm : VM) (tr : Trace) (c : Cursor) : EOut :=
  match c.nextExpr with
  | none => .ok vm tr
  | some e =>
    match fuel with
    | 0 => .fuelOut
    | f + 1 =>
      let c' := c.moveRight
      match e with
      | .ident prim =>
        match evalPrimArm fs f prim vm tr with
        | .panic => .panic
        | .fuelOut => .fuelOut
        | .fail vm' tr' =>
          let vm' := vm'.push .poison
          evalGo fs f vm' (addSnapshot vm' tr' c'.shape) c'
        | .ok vm' tr' => evalGo fs f vm' (addSnapshot vm' tr' c'.shape) c'
      | .strLit s =>
        let vm' := vm.push (Value.newStr s)
        evalGo fs f vm' (addSnapshot vm' tr c'.shape) c'
      | .numLit n =>
        let vm' := vm.push (Value.newNum n)
        evalGo fs f vm' (addSnapshot vm' tr c'.shape) c'
      | .quote _ =>
        let q := c'.moveUp.moveVeryLeft
        let vm' := vm.push (Value.newQuote q)
        evalGo fs f vm' (addSnapshot vm' tr c'.shape) c'

end

/-- `VM::eval_prim`: run the matching rule; a `None?` escape from the try
block pushes exactly one Poison onto the stack as it stands. -/
def evalPrim (fs : List Char → Option (List Char)) (fuel : Nat)
    (prim : String) (vm : VM) (tr : Trace) : EOut :=
  match evalPrimArm fs fuel prim vm tr with
  | .panic => .panic
  | .fuelOut => .fuelOut
  | .fail vm tr => .ok (vm.push .poison) tr
  | .ok vm tr => .ok vm tr

/-- `VM::eval_cursor`: record the incoming state, then run the loop. -/
def evalCursor (fs : List Char → Option (List Char)) (fuel : Nat)
    (vm : VM) (tr : Trace) (c : Cursor) : EOut :=
  match fuel with
  | 0 => .fuelOut
  | f + 1 => evalGo fs f vm (addSnapshot vm tr c.shape) c

/-! ## Definitions used to state the claims -/

/-- Oracle under which every file read fails (no claim exercises `read`). -/
def noFs : List Char → Option (List Char) := fun _ => none

/-- Top of the stack (= last pushed). -/
def VM.top (vm : VM) : Option Value := vm.stack.getLast?

/-- The program `3 iota {inc} map`. -/
def progIotaMap : Program := [.numLit 3, .ident "iota", .quote [.ident "inc"], .ident "map"]

/-- The trace of one full evaluation of `progIotaMap` from `initial`. -/
def traceIotaMap : Trace :=
  match evalCursor noFs 100 VM.new [] (Cursor.initial progIotaMap) with
  | .ok _ tr => tr
  | _ => []

/-- The cursor relation claimed by C4: same variant, equal head and tail
lengths at every nesting level, and additionally equal buffer lengths for
the Ident/StrLit foci.  (Written from the claim, for comparison with
`Cursor.shape`.) -/
def claimedSkeleton : Cursor → Cursor → Bool
  | .edge h t, .edge h' t' => h.length == h'.length && t.length == t'.length
  | .quote h c t, .quote h' c' t' =>
    h.length == h'.length && claimedSkeleton c c' && t.length == t'.length
  | .ident h _ b t, .ident h' _ b' t' =>
    h.length == h'.length && t.length == t'.length && b.length == b'.length
  | .strLit h _ b t, .strLit h' _ b' t' =>
    h.length == h'.length && t.length == t'.length && b.length == b'.length
  | .numLit h _ t, .numLit h' _ t' => h.length == h'.length && t.length == t'.length
  | _, _ => false

/-- The skeleton equivalence that `Cursor::shape` actually fingerprints:
same variant and equal head/tail lengths at every nesting level; buffer
contents *and lengths*, caret positions and NumLit accumulators are all
ignored. -/
def sameSkeleton : Cursor → Cursor → Bool
  | .edge h t, .edge h' t' => h.length == h'.length && t.length == t'.length
  | .quote h c t, .quote h' c' t' =>
    h.length == h'.length && (sameSkeleton c c' && t.length == t'.length)
  | .ident h _ _ t, .ident h' _ _ t' => h.length == h'.length && t.length == t'.length
  | .strLit h _ _ t, .strLit h' _ _ t' => h.length == h'.length && t.length == t'.length
  | .numLit h _ t, .numLit h' _ t' => h.length == h'.length && t.length == t'.length
  | _, _ => false

/-- Total multiplicity of a key in a polyset element list. -/
def keyMult {T : Type} [DecidableEq T] (k : T) (l : List (T × Int)) : Int :=
  (l.map (fun p => if p.1 = k then p.2 else 0)).sum

/-- The §3 Polyset invariant: elements strictly increasing by key. -/
def strictByKey {T : Type} [LT T] (l : List (T × Int)) : Prop :=
  l.Pairwise (fun p q => p.1 < q.1)

/-! ## Helper lemmas -/

theorem VM.pop_concat (p : Option VM) (s : List Value) (v : Value) :
    VM.pop (VM.mk p (s ++ [v])) = some (v, VM.mk p s) := by
  simp [VM.pop, VM.stack, VM.setStack]

theorem VM.pop_concat2 (p : Option VM) (s : List Value) (x y : Value) :
    VM.pop (VM.mk p (s ++ [x, y])) = some (y, VM.mk p (s ++ [x])) := by
  have hs : s ++ [x, y] = (s ++ [x]) ++ [y] := by rw [List.append_assoc]; rfl
  rw [hs, VM.pop_concat]

theorem Value.asNum_num (n : Int) : (Value.num n).asNum = some n := rfl

theorem evalPrimArm_add (fs : List Char → Option (List Char)) (fuel : Nat)
    (vm : VM) (tr : Trace) : evalPrimArm fs fuel "+" vm tr = armAdd vm tr := by
  cases fuel <;> rfl

theorem program_isSome_of_normal (c : Cursor) (hm : c.mode = .normal) :
    ∃ p, c.program = some p := by
  induction c with
  | edge h t => exact ⟨h ++ t, rfl⟩
  | quote h c t ih =>
    obtain ⟨p, hp⟩ := ih (by simpa [Cursor.mode] using hm)
    exact ⟨h ++ .quote p :: t, by simp [Cursor.program, hp]⟩
  | ident h n s t => simp [Cursor.mode] at hm
  | strLit h n s t => simp [Cursor.mode] at hm
  | numLit h n t => simp [Cursor.mode] at hm

theorem moveLeft_edge_program (h t : Program) :
    (Cursor.edge h t).moveLeft.program = (Cursor.edge h t).program := by
  cases hl : h.getLast? with
  | none => simp [Cursor.moveLeft, hl]
  | some e =>
    have hd : h.dropLast ++ [e] = h :=
      List.dropLast_append_getLast? e (Option.mem_def.2 hl)
    simp only [Cursor.moveLeft, hl, Cursor.program]
    conv_rhs => rw [← hd]
    simp [List.append_assoc]

theorem moveRight_edge_program (h t : Program) :
    (Cursor.edge h t).moveRight.program = (Cursor.edge h t).program := by
  cases t with
  | nil => rfl
  | cons e rest => simp [Cursor.moveRight, Cursor.program]

theorem moveVeryLeft_edge_program (h t : Program) :
    (Cursor.edge h t).moveVeryLeft.program = (Cursor.edge h t).program := by
  simp [Cursor.moveVeryLeft, Cursor.program]

theorem moveUp_edge_program (h t : Program) :
    (Cursor.edge h t).moveUp.program = (Cursor.edge h t).program := by
  cases hl : h.getLast? with
  | none => simp [Cursor.moveUp, hl]
  | some e =>
    have hd : h.dropLast ++ [e] = h :=
      List.dropLast_append_getLast? e (Option.mem_def.2 hl)
    cases e with
    | quote p =>
      simp only [Cursor.moveUp, hl, Cursor.program]
      conv_rhs => rw [← hd]
      simp [List.append_assoc]
    | ident s => simp [Cursor.moveUp, hl]
    | strLit s => simp [Cursor.moveUp, hl]
    | numLit n => simp [Cursor.moveUp, hl]

theorem moveOut_edge_program (h t : Program) :
    (Cursor.edge h t).moveOut.bind Cursor.program = (Cursor.edge h t).program := rfl

section PolysetLemmas

variable {T : Type} [LinearOrder T]

omit [LinearOrder T] in
theorem joinAux_nil_left (cmp : T → T → Ordering) (l : List (T × Int)) :
    Polyset.joinAux cmp [] l = [] := by
  cases l <;> simp [Polyset.joinAux]

omit [LinearOrder T] in
theorem joinAux_nil_right (cmp : T → T → Ordering) (l : List (T × Int)) :
    Polyset.joinAux cmp l [] = [] := by
  cases l <;> simp [Polyset.joinAux]

theorem keyMult_cons (k x : T) (m : Int) (l : List (T × Int)) :
    keyMult k ((x, m) :: l) = (if x = k then m else 0) + keyMult k l := by
  simp [keyMult]

theorem keyMult_eq_zero {k : T} {l : List (T × Int)} (h : ∀ p ∈ l, p.1 ≠ k) :
    keyMult k l = 0 := by
  induction l with
  | nil => rfl
  | cons p rest ih =>
    obtain ⟨x, m⟩ := p
    rw [keyMult_cons, if_neg (h (x, m) (by simp)), ih (fun q hq => h q (by simp [hq]))]
    simp

theorem joinAux_comm (l1 l2 : List (T × Int)) :
    Polyset.joinAux compare l1 l2 = Polyset.joinAux compare l2 l1 := by
  induction l1, l2 using Polyset.joinAux.induct (compare : T → T → Ordering) with
  | case1 x m as' y n bs hxy ih =>
    have hx : x = y := compare_eq_iff_eq.1 hxy
    subst hx
    have hself : compare x x = Ordering.eq := compare_eq_iff_eq.2 rfl
    simp [Polyset.joinAux, hself, ih, Int.mul_comm]
  | case2 x m as' y n bs hxy ih =>
    have hyx : compare y x = Ordering.gt := compare_gt_iff_gt.2 (compare_lt_iff_lt.1 hxy)
    simp [Polyset.joinAux, hxy, hyx, ih]
  | case3 x m as' y n bs hxy ih =>
    have hyx : compare y x = Ordering.lt := compare_lt_iff_lt.2 (compare_gt_iff_gt.1 hxy)
    simp [Polyset.joinAux, hxy, hyx, ih]
  | case4 l1 l2 h =>
    cases l1 with
    | nil => rw [joinAux_nil_left, joinAux_nil_right]
    | cons p as' =>
      cases l2 with
      | nil => rw [joinAux_nil_left, joinAux_nil_right]
      | cons q bs => exact (h p.1 p.2 as' q.1 q.2 bs (by simp) (by simp)).elim

theorem keyMult_joinAux :
    ∀ (l1 l2 : List (T × Int)), strictByKey l1 → strictByKey l2 → ∀ k : T,
      keyMult k (Polyset.joinAux compare l1 l2) = keyMult k l1 * keyMult k l2 := by
  intro l1 l2
  induction l1, l2 using Polyset.joinAux.induct (compare : T → T → Ordering) with
  | case1 x m as' y n bs hxy ih =>
    intro h1 h2 k
    have hx : x = y := compare_eq_iff_eq.1 hxy
    subst hx
    obtain ⟨hhead1, htail1⟩ := List.pairwise_cons.1 h1
    obtain ⟨hhead2, htail2⟩ := List.pairwise_cons.1 h2
    have hJ := ih htail1 htail2 k
    simp only [Polyset.joinAux, hxy]
    rw [keyMult_cons k x (m * n) (Polyset.joinAux compare as' bs),
      keyMult_cons k x m as', keyMult_cons k x n bs, hJ]
    by_cases hk : x = k
    · subst hk
      have h0 : keyMult x as' = 0 :=
        keyMult_eq_zero (fun p hp => (hhead1 p hp).ne')
      have h0' : keyMult x bs = 0 :=
        keyMult_eq_zero (fun p hp => (hhead2 p hp).ne')
      simp only [if_pos rfl, h0, h0']
      simp
    · simp only [if_neg hk]
      ring
  | case2 x m as' y n bs hxy ih =>
    intro h1 h2 k
    have hlt : x < y := compare_lt_iff_lt.1 hxy
    obtain ⟨hhead1, htail1⟩ := List.pairwise_cons.1 h1
    obtain ⟨hhead2, _⟩ := List.pairwise_cons.1 h2
    have hJ := ih htail1 h2 k
    simp only [Polyset.joinAux, hxy]
    rw [hJ]
    by_cases hk : x = k
    · subst hk
      have h0 : keyMult x ((y, n) :: bs) = 0 := by
        apply keyMult_eq_zero
        intro p hp
        rcases List.mem_cons.1 hp with hq | hq
        · rw [hq]; exact hlt.ne'
        · exact (hlt.trans (hhead2 p hq)).ne'
      rw [h0]
      simp
    · rw [keyMult_cons k x m as', if_neg hk, zero_add]
  | case3 x m as' y n bs hxy ih =>
    intro h1 h2 k
    have hgt : y < x := compare_gt_iff_gt.1 hxy
    obtain ⟨hhead1, _⟩ := List.pairwise_cons.1 h1
    obtain ⟨hhead2, htail2⟩ := List.pairwise_cons.1 h2
    have hJ := ih h1 htail2 k
    simp only [Polyset.joinAux, hxy]
    rw [hJ]
    by_cases hk : y = k
    · subst hk
      have h0 : keyMult y ((x, m) :: as') = 0 := by
        apply keyMult_eq_zero
        intro p hp
        rcases List.mem_cons.1 hp with hq | hq
        · rw [hq]; exact hgt.ne'
        · exact (hgt.trans (hhead1 p hq)).ne'
      rw [h0]
      simp
    · rw [keyMult_cons k y n bs, if_neg hk, zero_add]
  | case4 l1 l2 h =>
    intro h1 h2 k
    cases l1 with
    | nil =>
      rw [joinAux_nil_left]
      simp [keyMult]
    | cons p as' =>
      cases l2 with
      | nil =>
        rw [joinAux_nil_right]
        simp [keyMult]
      | cons q bs => exact (h p.1 p.2 as' q.1 q.2 bs (by simp) (by simp)).elim

theorem mem_joinAux :
    ∀ (l1 l2 : List (T × Int)) (p : T × Int), p ∈ Polyset.joinAux compare l1 l2 →
      p.1 ∈ l1.map Prod.fst ∧ p.1 ∈ l2.map Prod.fst := by
  intro l1 l2
  induction l1, l2 using Polyset.joinAux.induct (compare : T → T → Ordering) with
  | case1 x m as' y n bs hxy ih =>
    intro p hp
    have hx : x = y := compare_eq_iff_eq.1 hxy
    subst hx
    simp only [Polyset.joinAux, hxy] at hp
    rcases List.mem_cons.1 hp with hq | hq
    · rw [hq]; simp
    · obtain ⟨ha, hb⟩ := ih p hq
      exact ⟨by simp [ha], by simp [hb]⟩
  | case2 x m as' y n bs hxy ih =>
    intro p hp
    simp only [Polyset.joinAux, hxy] at hp
    obtain ⟨ha, hb⟩ := ih p hp
    exact ⟨by simp [ha], hb⟩
  | case3 x m as' y n bs hxy ih =>
    intro p hp
    simp only [Polyset.joinAux, hxy] at hp
    obtain ⟨ha, hb⟩ := ih p hp
    exact ⟨ha, by simp [hb]⟩
  | case4 l1 l2 h =>
    intro p hp
    cases l1 with
    | nil => rw [joinAux_nil_left] at hp; exact absurd hp (by simp)
    | cons q as' =>
      cases l2 with
      | nil => rw [joinAux_nil_right] at hp; exact absurd hp (by simp)
      | cons r bs => exact (h q.1 q.2 as' r.1 r.2 bs (by simp) (by simp)).elim

end PolysetLemmas

theorem armCopy_no_panic (vm : VM) (tr : Trace) : armCopy vm tr ≠ POut.panic := by
  intro h
  unfold armCopy at h
  simp only [] at h
  repeat' split at h
  all_goals exact nomatch h

theorem armMove_no_panic (vm : VM) (tr : Trace) : armMove vm tr ≠ POut.panic := by
  intro h
  unfold armMove at h
  simp only [] at h
  repeat' split at h
  all_goals exact nomatch h

/-! ## The claims -/

/-- C1: the claim says no primitive ever aborts the interpreter, with any
precondition failure turned into a single Poison push.  The code violates
this: `/` divides BigInts without a zero check (panics on divisor 0),
`chunks` calls `slice::chunks` with a possibly-zero size (panics on 0),
and `splitat` calls `Vec::split_off` with an unchecked index (panics when
it exceeds the list length).  The Poison path itself does hold elsewhere:
`dup` on the empty stack leaves exactly one Poison, `copy` and `move`
never abort on any stack (out-of-range leaves a Poison), and so do
`under`'s own precondition failures and unrecognized identifiers. -/
theorem div_zero_chunks_zero_splitat_abort :
    evalPrim noFs 0 "/" (VM.mk none [.num 1, .num 0]) [] = .panic
    ∧ evalPrim noFs 0 "chunks" (VM.mk none [Value.newList [], .num 0]) [] = .panic
    ∧ evalPrim noFs 0 "splitat" (VM.mk none [Value.newList [.num 7], .num 5]) [] = .panic
    ∧ evalPrim noFs 0 "dup" VM.new [] = .ok (VM.mk none [.poison]) []
    ∧ (∀ (fs : List Char → Option (List Char)) (fuel : Nat) (vm : VM) (tr : Trace),
        evalPrim fs fuel "copy" vm tr ≠ .panic)
    ∧ (∀ (fs : List Char → Option (List Char)) (fuel : Nat) (vm : VM) (tr : Trace),
        evalPrim fs fuel "move" vm tr ≠ .panic)
    ∧ evalPrim noFs 0 "move" (VM.mk none [.num 7, .num 5]) []
        = .ok (VM.mk none [.num 7, .poison]) []
    ∧ evalPrim noFs 1 "under" (VM.mk none [Value.newQuote Cursor.empty, .num 3]) []
        = .ok (VM.mk none [.poison]) []
    ∧ evalPrim noFs 0 "blorp" (VM.mk none [.num 7]) []
        = .ok (VM.mk none [.num 7, .poison]) [] := by
  refine ⟨rfl, rfl, rfl, rfl, ?_, ?_, rfl, rfl, rfl⟩
  · intro fs fuel vm tr
    have hd : evalPrimArm fs fuel "copy" vm tr = armCopy vm tr := by cases fuel <;> rfl
    unfold evalPrim
    rw [hd]
    cases h : armCopy vm tr with
    | panic => exact absurd h (armCopy_no_panic vm tr)
    | fuelOut => exact fun hh => nomatch hh
    | fail vm' tr' => exact fun hh => nomatch hh
    | ok vm' tr' => exact fun hh => nomatch hh
  · intro fs fuel vm tr
    have hd : evalPrimArm fs fuel "move" vm tr = armMove vm tr := by cases fuel <;> rfl
    unfold evalPrim
    rw [hd]
    cases h : armMove vm tr with
    | panic => exact absurd h (armMove_no_panic vm tr)
    | fuelOut => exact fun hh => nomatch hh
    | fail vm' tr' => exact fun hh => nomatch hh
    | ok vm' tr' => exact fun hh => nomatch hh

/-- C2 counterexample: evaluating `+` on the stack `[x, 3]` with `x` not a
number (here Poison) leaves `[Poison]`, not the claimed `[x, 3, Poison]`:
the two pops performed before the failing coercion are kept. -/
theorem add_failure_discards_popped_operands :
    evalPrim noFs 0 "+" (VM.mk none [.poison, .num 3]) [] = .ok (VM.mk none [.poison]) []
    ∧ EOut.ok (VM.mk none [.poison]) [] ≠ .ok (VM.mk none [.poison, .num 3, .poison]) [] :=
  ⟨rfl, fun h => nomatch h⟩

/-- C2 amended: when a pop or coercion fails partway through a rule, the
pops already performed are kept and exactly one Poison is pushed onto the
stack as it then stands; for `+` on a stack `s ++ [x, n]` with `x` not a
number both operands are gone and `s ++ [Poison]` remains. -/
theorem add_failure_keeps_earlier_pops (fs : List Char → Option (List Char))
    (fuel : Nat) (p : Option VM) (tr : Trace) (s : List Value) (x : Value) (n : Int)
    (hx : x.asNum = none) :
    evalPrim fs fuel "+" (VM.mk p (s ++ [x, Value.num n])) tr
      = .ok (VM.mk p (s ++ [.poison])) tr := by
  unfold evalPrim
  rw [evalPrimArm_add]
  simp [armAdd, VM.pop_concat2, VM.pop_concat, hx, Value.asNum_num, VM.push,
    VM.stack, VM.setStack]

theorem add_failure_keeps_earlier_pops_witness :
    evalPrim noFs 0 "+" (VM.mk none ([] ++ [Value.poison, Value.num 3])) []
      = .ok (VM.mk none ([] ++ [Value.poison])) [] :=
  add_failure_keeps_earlier_pops noFs 0 none [] [] .poison 3 rfl

/-- C3: evaluating `3 iota {inc} map` from `initial`, the trace entry for
the shape of the position just before `inc` inside the quote holds exactly
three snapshots with tops 0, 1, 2, and the entry for the position just
after `inc` holds exactly three snapshots with tops 1, 2, 3. -/
theorem map_trace_inc_snapshots :
    (traceAt traceIotaMap (.quote 2 (.edge 0 1) 1)).map (fun l => l.map VM.top)
      = some [some (.num 0), some (.num 1), some (.num 2)]
    ∧ (traceAt traceIotaMap (.quote 2 (.edge 1 0) 1)).map (fun l => l.map VM.top)
      = some [some (.num 1), some (.num 2), some (.num 3)] :=
  ⟨rfl, rfl⟩

/-- C4 counterexample: two Ident cursors whose buffers have different
lengths (0 and 1) still have equal shapes — `Cursor::shape` drops the
buffer entirely — so shape equality is not the claimed relation that
includes equal buffer lengths. -/
theorem shape_equal_despite_buffer_lengths :
    ¬ (Cursor.shape (.ident [] 0 [] []) = Cursor.shape (.ident [] 0 ['a'] [])
        ↔ claimedSkeleton (.ident [] 0 [] []) (.ident [] 0 ['a'] []) = true) := by
  decide

/-- C4 amended: two cursors have equal shapes exactly when, recursively
through Quote foci, they have the same variant and equal head and tail
lengths; buffer contents and lengths, caret positions and NumLit
accumulators are all ignored. -/
theorem shape_eq_iff_same_skeleton (c1 c2 : Cursor) :
    c1.shape = c2.shape ↔ sameSkeleton c1 c2 = true := by
  induction c1 generalizing c2 with
  | edge h t => cases c2 <;> simp [Cursor.shape, sameSkeleton]
  | quote h c t ih => cases c2 <;> simp [Cursor.shape, sameSkeleton, ih]
  | ident h n s t => cases c2 <;> simp [Cursor.shape, sameSkeleton]
  | strLit h n s t => cases c2 <;> simp [Cursor.shape, sameSkeleton]
  | numLit h n t => cases c2 <;> simp [Cursor.shape, sameSkeleton]

theorem shape_eq_iff_same_skeleton_witness :
    sameSkeleton (.edge [] []) (.edge [] []) = true :=
  (shape_eq_iff_same_skeleton (.edge [] []) (.edge [] [])).mp rfl

/-- C5: `Polyset.join` is commutative; under the sortedness invariant the
multiplicity of every key in the join is the product of its multiplicities
in the operands (so a shared key keeps the product, and a key missing from
one side gets multiplicity 0); and every key of the join occurs in both
operands. -/
theorem polyset_join_comm_and_mult {T : Type} [LinearOrder T] (A B : Polyset T) :
    Polyset.join compare A B = Polyset.join compare B A
    ∧ (strictByKey A.elems → strictByKey B.elems → ∀ k : T,
        keyMult k (Polyset.join compare A B).elems
          = keyMult k A.elems * keyMult k B.elems)
    ∧ (∀ p ∈ (Polyset.join compare A B).elems,
        p.1 ∈ A.elems.map Prod.fst ∧ p.1 ∈ B.elems.map Prod.fst) := by
  refine ⟨?_, ?_, ?_⟩
  · unfold Polyset.join
    rw [joinAux_comm]
  · intro h1 h2 k
    exact keyMult_joinAux A.elems B.elems h1 h2 k
  · intro p hp
    exact mem_joinAux A.elems B.elems p hp

theorem polyset_join_comm_and_mult_witness :
    keyMult (1 : Int)
        (Polyset.join compare (⟨[(1, 2), (3, 1)]⟩ : Polyset Int) ⟨[(1, 5)]⟩).elems
      = keyMult 1 ([(1, 2), (3, 1)] : List (Int × Int)) * keyMult 1 [(1, 5)] :=
  (polyset_join_comm_and_mult ⟨[(1, 2), (3, 1)]⟩ ⟨[(1, 5)]⟩).2.1
    (by simp [strictByKey]) (by simp [strictByKey]) 1

/-- C6: on an Edge cursor with non-empty head and non-empty tail,
moveRight then moveLeft is the identity, and so is moveLeft then
moveRight. -/
theorem edge_move_roundtrip (h t : Program) (hh : h ≠ []) (ht : t ≠ []) :
    (Cursor.edge h t).moveRight.moveLeft = .edge h t
    ∧ (Cursor.edge h t).moveLeft.moveRight = .edge h t := by
  obtain ⟨e, rest, rfl⟩ : ∃ e rest, t = e :: rest := by
    cases t with
    | nil => exact absurd rfl ht
    | cons e rest => exact ⟨e, rest, rfl⟩
  obtain ⟨h', e', rfl⟩ : ∃ h' e', h = h' ++ [e'] :=
    ⟨h.dropLast, h.getLast hh, (List.dropLast_append_getLast hh).symm⟩
  constructor
  · simp [Cursor.moveRight, Cursor.moveLeft]
  · simp [Cursor.moveLeft, Cursor.moveRight]

theorem edge_move_roundtrip_witness :
    (Cursor.edge [.ident "a"] [.ident "b"]).moveRight.moveLeft
      = .edge [.ident "a"] [.ident "b"] :=
  (edge_move_roundtrip [.ident "a"] [.ident "b"]
    (fun h => nomatch h) (fun h => nomatch h)).1

/-- C7: escapeToNormal recurses through Quote; an Ident or StrLit focus
always commits its buffer (even when empty) as a finished expression
appended to the head; a NumLit focus commits its accumulator only when at
least one digit was entered (`some n`) and is silently dropped otherwise;
an Edge focus is untouched. -/
theorem escape_to_normal_commits :
    (∀ h t, Cursor.escapeToNormal (.edge h t) = .edge h t)
    ∧ (∀ h c t, Cursor.escapeToNormal (.quote h c t) = .quote h c.escapeToNormal t)
    ∧ (∀ h n s t, Cursor.escapeToNormal (.ident h n s t)
        = .edge (h ++ [.ident (String.mk s)]) t)
    ∧ (∀ h n s t, Cursor.escapeToNormal (.strLit h n s t)
        = .edge (h ++ [.strLit (String.mk s)]) t)
    ∧ (∀ h n t, Cursor.escapeToNormal (.numLit h (some n) t) = .edge (h ++ [.numLit n]) t)
    ∧ (∀ h t, Cursor.escapeToNormal (.numLit h none t) = .edge h t) :=
  ⟨fun _ _ => rfl, fun _ _ _ => rfl, fun _ _ _ _ => rfl, fun _ _ _ _ => rfl,
   fun _ _ _ => rfl, fun _ _ => rfl⟩

/-- C8: the `frames` loop runs `i` over `0 .. len - size`, so the final
window starting at `len - size` is never emitted: with window size 3 over
[0,1,2] it pushes the empty list (the claim expects [[0,1,2]]), and with
size 2 it pushes [[0,1]] (the claim expects [[0,1],[1,2]]). -/
theorem frames_misses_last_window :
    evalPrim noFs 0 "frames" (VM.mk none [Value.newList [.num 0, .num 1, .num 2], .num 3]) []
      = .ok (VM.mk none [Value.newList []]) []
    ∧ evalPrim noFs 0 "frames" (VM.mk none [Value.newList [.num 0, .num 1, .num 2], .num 2]) []
      = .ok (VM.mk none [Value.newList [Value.newList [.num 0, .num 1]]]) [] :=
  ⟨rfl, rfl⟩

/-- C9 counterexample: `as_set` on a List value (here the empty list) does
not yield nothing — it coerces the list into a Polyset. -/
theorem as_set_accepts_list :
    Value.asSet (Value.newList []) = some ⟨[]⟩
    ∧ (some (⟨[]⟩ : Polyset Value) : Option (Polyset Value)) ≠ none :=
  ⟨rfl, fun h => nomatch h⟩

/-- C9 amended: each accessor yields something only on its own kind —
except `as_set`, which accepts a Set or a List (a List is collected into a
Polyset with multiplicity 1 per occurrence). -/
theorem accessor_kind_contracts :
    (∀ v : Value, v.asChar ≠ none → ∃ c, v = .char c)
    ∧ (∀ v : Value, v.asNum ≠ none → (∃ n, v = .num n) ∨ (∃ n, v = .ptr (.num n)))
    ∧ (∀ v : Value, v.asList ≠ none → ∃ l, v = .ptr (.list l))
    ∧ (∀ v : Value, v.asQuote ≠ none → ∃ c, v = .ptr (.quote c))
    ∧ (∀ v : Value, v.asSet ≠ none →
        (∃ s, v = .ptr (.set s)) ∨ (∃ l, v = .ptr (.list l)))
    ∧ (∀ l, (Value.ptr (.list l)).asSet = some (Polyset.fromVec compareValue l)) := by
  refine ⟨?_, ?_, ?_, ?_, ?_, fun l => rfl⟩ <;> intro v hv
  · cases v with
    | char c => exact ⟨c, rfl⟩
    | poison => simp [Value.asChar] at hv
    | num n => simp [Value.asChar] at hv
    | ptr w => simp [Value.asChar] at hv
  · cases v with
    | num n => exact .inl ⟨n, rfl⟩
    | poison => simp [Value.asNum] at hv
    | char c => simp [Value.asNum] at hv
    | ptr w =>
      cases w with
      | num n => exact .inr ⟨n, rfl⟩
      | list l => simp [Value.asNum] at hv
      | set s => simp [Value.asNum] at hv
      | quote c => simp [Value.asNum] at hv
  · cases v with
    | ptr w =>
      cases w with
      | list l => exact ⟨l, rfl⟩
      | num n => simp [Value.asList] at hv
      | set s => simp [Value.asList] at hv
      | quote c => simp [Value.asList] at hv
    | poison => simp [Value.asList] at hv
    | char c => simp [Value.asList] at hv
    | num n => simp [Value.asList] at hv
  · cases v with
    | ptr w =>
      cases w with
      | quote c => exact ⟨c, rfl⟩
      | num n => simp [Value.asQuote] at hv
      | list l => simp [Value.asQuote] at hv
      | set s => simp [Value.asQuote] at hv
    | poison => simp [Value.asQuote] at hv
    | char c => simp [Value.asQuote] at hv
    | num n => simp [Value.asQuote] at hv
  · cases v with
    | ptr w =>
      cases w with
      | set s => exact .inl ⟨s, rfl⟩
      | list l => exact .inr ⟨l, rfl⟩
      | num n => simp [Value.asSet] at hv
      | quote c => simp [Value.asSet] at hv
    | poison => simp [Value.asSet] at hv
    | char c => simp [Value.asSet] at hv
    | num n => simp [Value.asSet] at hv

theorem accessor_kind_contracts_witness :
    ∃ c, Value.char 'a' = Value.char c :=
  accessor_kind_contracts.1 (.char 'a') (fun h => nomatch h)

/-- C10: on a Normal-mode cursor (every nested focus is an Edge), each of
moveLeft, moveRight, moveVeryLeft, moveUp, and moveOut leaves the
reconstructed program unchanged. -/
theorem normal_moves_preserve_program (c : Cursor) (hm : c.mode = .normal) :
    c.moveLeft.program = c.program
    ∧ c.moveRight.program = c.program
    ∧ c.moveVeryLeft.program = c.program
    ∧ c.moveUp.program = c.program
    ∧ c.moveOut.bind Cursor.program = c.program := by
  induction c with
  | edge h t =>
    exact ⟨moveLeft_edge_program h t, moveRight_edge_program h t,
      moveVeryLeft_edge_program h t, moveUp_edge_program h t, moveOut_edge_program h t⟩
  | quote h c t ih =>
    have hm' : c.mode = .normal := by simpa [Cursor.mode] using hm
    obtain ⟨l, r, vl, u, o⟩ := ih hm'
    refine ⟨?_, ?_, ?_, ?_, ?_⟩
    · simp [Cursor.moveLeft, Cursor.program, l]
    · simp [Cursor.moveRight, Cursor.program, r]
    · simp [Cursor.moveVeryLeft, Cursor.program, vl]
    · simp [Cursor.moveUp, Cursor.program, u]
    · cases c with
      | quote h' c' t' =>
        simp only [Cursor.moveOut]
        cases ho : (Cursor.quote h' c' t').moveOut with
        | none =>
          rw [ho] at o
          obtain ⟨p, hp⟩ := program_isSome_of_normal _ hm'
          rw [hp] at o
          exact absurd o (by simp)
        | some c'' =>
          rw [ho] at o
          simp only [Option.some_bind] at o
          simp [Cursor.program, o]
      | edge h' t' =>
        simp [Cursor.moveOut, Cursor.program, List.append_assoc]
      | ident h' n' s' t' => simp [Cursor.mode] at hm'
      | strLit h' n' s' t' => simp [Cursor.mode] at hm'
      | numLit h' n' t' => simp [Cursor.mode] at hm'
  | ident h n s t => simp [Cursor.mode] at hm
  | strLit h n s t => simp [Cursor.mode] at hm
  | numLit h n t => simp [Cursor.mode] at hm

theorem normal_moves_preserve_program_witness :
    (Cursor.edge [.ident "a"] []).moveLeft.program
      = (Cursor.edge [.ident "a"] []).program :=
  (normal_moves_preserve_program (.edge [.ident "a"] []) rfl).1

end Elv
